import Mathlib

/-!
Shallow embedding of the icon-resolution core of the `ignition` launcher
(`src/apps/icons/finder.rs`, `src/apps/icons/loader.rs`, `src/apps/icons/mod.rs`).

Conventions used throughout:
* Rust `String`/`&str` become Lean `String`; character-level operations work on
  `String.data : List Char`.
* Machine integers (`u16`, `u32`, `usize`) become `Nat`; wrapping subtraction is
  written out with an explicit `% 65536` where the source can underflow a `u16`
  (release-mode wrapping semantics).
* A Rust `panic!` / failed `assert!` / `unwrap()` is modelled by returning `none`
  from an `Option`-valued function.
* `HashMap` becomes an association list with insert-replace semantics;
  `HashSet` becomes a duplicate-free insertion list.
-/

namespace Ignition

/-- Rust `str::split_once(sep)` on a character list: split at the first
occurrence of `sep`, returning the parts before and after it. -/
def splitOnce (sep : Char) : List Char → Option (List Char × List Char)
  | [] => none
  | c :: rest =>
    if c = sep then some ([], rest)
    else (splitOnce sep rest).map (fun p => (c :: p.1, p.2))

/-- Value of a decimal digit character, `none` when `c` is not a digit
(`u32::from_str` on a one-character slice fails there). -/
def digitVal (c : Char) : Option Nat :=
  if c.isDigit then some (c.toNat - 48) else none

/-- Decimal value of a nonempty all-digit character list, `none` otherwise. -/
def digitsVal (cs : List Char) : Option Nat :=
  if cs ≠ [] ∧ cs.all Char.isDigit then
    some (cs.foldl (fun a c => a * 10 + (c.toNat - 48)) 0)
  else none

/-- Rust `uN::from_str`: an optional leading `+`, then digits; errors on
overflow past `maxVal`. -/
def uFromStr (maxVal : Nat) (cs : List Char) : Option Nat :=
  let body := match cs with
    | '+' :: rest => rest
    | other => other
  match digitsVal body with
  | some v => if v ≤ maxVal then some v else none
  | none => none

/-- `IconSize` from `finder.rs`. -/
inductive IconSize where
  | scalable
  | fixed (size : Nat)
  deriving DecidableEq, Repr

/-- `IconDescriptor` from `finder.rs`. -/
structure IconDescriptor where
  size : Option IconSize
  scale : Nat
  theme : Option String
  deriving DecidableEq, Repr

/-- `impl Default for IconDescriptor`. -/
def IconDescriptor.default : IconDescriptor :=
  { size := none, scale := 1, theme := none }

/-- `IconDescOrd` from `finder.rs`; its derived `Ord` is lexicographic in
declaration order (`size_score`, then `scale`). -/
structure IconDescOrd where
  size_score : Nat
  scale : Nat
  deriving DecidableEq, Repr

/-- The strict order of the derived `Ord` on `IconDescOrd`. -/
def IconDescOrd.lt (a b : IconDescOrd) : Prop :=
  a.size_score < b.size_score ∨ (a.size_score = b.size_score ∧ a.scale < b.scale)

instance (a b : IconDescOrd) : Decidable (IconDescOrd.lt a b) := by
  unfold IconDescOrd.lt; infer_instance

/-- `IconDescriptor::ord` from `finder.rs` (higher is better).  `u16::MAX` is
65535; the `Less` branch computes `(u16::MAX / 2) - distance` in `u16`
arithmetic, which wraps modulo 2^16 when `distance > 32767`. -/
def IconDescriptor.ord (d : IconDescriptor) (target : Nat) : IconDescOrd :=
  let size_score :=
    match d.size with
    | none => 0
    | some IconSize.scalable => 65535 - 1
    | some (IconSize.fixed size) =>
      if size = target then 65535
      else if target < size then
        65535 - (size - target)
      else
        (65535 / 2 + 65536 - (target - size)) % 65536
  { size_score := size_score, scale := d.scale }

/-- The `if dir_name == "scalable"` statement of `IconDescriptor::apply`. -/
def applyScalable (d : IconDescriptor) (dirName : List Char) : IconDescriptor :=
  if dirName = "scalable".data then { d with size := some IconSize.scalable } else d

/-- The `32x32`-format statement of `IconDescriptor::apply`: when the name
holds exactly one `x` and both halves parse as `u16`, the size becomes
`Fixed(max(W, H))`. -/
def applyWxH (d : IconDescriptor) (dirName : List Char) : IconDescriptor :=
  if (dirName.filter (fun c => c = 'x')).length = 1 then
    match splitOnce 'x' dirName with
    | some (l, r) =>
      match uFromStr 65535 l, uFromStr 65535 r with
      | some left, some right => { d with size := some (IconSize.fixed (max left right)) }
      | _, _ => d
    | none => d
  else d

/-- The straight-number statement of `IconDescriptor::apply`. -/
def applyBareNum (d : IconDescriptor) (dirName : List Char) : IconDescriptor :=
  match uFromStr 65535 dirName with
  | some size => { d with size := some (IconSize.fixed size) }
  | none => d

/-- The theme-backfill statement of `IconDescriptor::apply`. -/
def applyTheme (d : IconDescriptor) (dirName : List Char) : IconDescriptor :=
  match d.theme with
  | none => { d with theme := some (String.mk dirName) }
  | some _ => d

/-- The tail of `IconDescriptor::apply` after the `@`-suffix handling: the
`scalable` check, the `WxH` parse, the bare-number parse, and the theme
backfill, applied in source order to the (possibly stripped) directory name. -/
def IconDescriptor.applyRest (d : IconDescriptor) (dirName : List Char) : IconDescriptor :=
  applyTheme (applyBareNum (applyWxH (applyScalable d dirName) dirName) dirName) dirName

/-- `IconDescriptor::apply` from `finder.rs`.  `none` models a panic: the
`assert!((1..=2).contains(&scale.len()))` or the failing
`u32::from_str(&scale[0..1]).unwrap()`. -/
def IconDescriptor.apply (d : IconDescriptor) (dirName : String) : Option IconDescriptor :=
  match splitOnce '@' dirName.data with
  | some (leftName, scaleStr) =>
    if 1 ≤ scaleStr.length ∧ scaleStr.length ≤ 2 then
      match scaleStr.head? with
      | some c =>
        (digitVal c).map (fun v => IconDescriptor.applyRest { d with scale := v } leftName)
      | none => none
    else none
  | none => some (d.applyRest dirName.data)

/-- Substring containment: Rust `str::contains(needle)`. -/
def listContains (hay needle : List Char) : Bool :=
  if needle.isPrefixOf hay then true
  else
    match hay with
    | [] => false
    | _ :: t => listContains t needle

/-- Rust `str::split_once` searched from the right (used to mirror
`Path::file_stem` / `Path::extension` on a plain file name). -/
def rsplitOnce (sep : Char) (cs : List Char) : Option (List Char × List Char) :=
  (splitOnce sep cs.reverse).map (fun p => (p.2.reverse, p.1.reverse))

/-- `Path::file_stem` and `Path::extension` on a file name: split at the last
`.`; a leading-dot-only name has no extension and is its own stem. -/
def fileStemExt (name : String) : String × Option String :=
  match rsplitOnce '.' name.data with
  | some (before, after) =>
    if before = [] then (name, none)
    else (String.mk before, some (String.mk after))
  | none => (name, none)

/-- `CachedDir` from `finder.rs`.  The source keeps one lazily-resolved entry
list; `find` consumes directories (via `dirs()`) strictly before files (via
`files()`), so the two are kept as separate ordered lists here. -/
inductive CachedDir where
  | mk (name : String) (files : List String) (subdirs : List CachedDir)

def CachedDir.name : CachedDir → String
  | .mk n _ _ => n

def CachedDir.files : CachedDir → List String
  | .mk _ fs _ => fs

def CachedDir.subdirs : CachedDir → List CachedDir
  | .mk _ _ ds => ds

/-- `CachedDir::join`: the first subdirectory whose name matches. -/
def CachedDir.join (d : CachedDir) (name : String) : Option CachedDir :=
  d.subdirs.find? (fun sd => sd.name = name)

/-- `IconLocation` from `finder.rs` (a search result).  Paths are lists of
path components. -/
structure IconLocation where
  path : List String
  file_name : String
  descriptor : IconDescriptor
  deriving DecidableEq, Repr

/-- The file loop of `CachedDir::find`: for every file whose name contains
`icon_name`, skip `xpm`, count an exact stem match, and emit an
`IconLocation`.  Returns the emitted locations and the exact-match count. -/
def findFiles (icon_name : String) (desc : IconDescriptor) (path : List String) :
    List String → List IconLocation × Nat
  | [] => ([], 0)
  | file :: rest =>
    let (out, found) := findFiles icon_name desc path rest
    if listContains file.data icon_name.data then
      let stem := (fileStemExt file).1
      let ext := (fileStemExt file).2.getD "no clue"
      if ext = "xpm" then (out, found)
      else
        let exact := if stem = icon_name then 1 else 0
        ({ path := path ++ [file], file_name := stem, descriptor := desc } :: out, exact + found)
    else (out, found)

mutual

/-- `CachedDir::find` from `finder.rs`.  `path` is the full path of `d`
(ending in `d.name`).  `none` models a panic inside `IconDescriptor::apply`.
Returns the pushed locations (recursion results before this directory's own
files) and the number of exact matches found. -/
def CachedDir.find (icon_name : String) (deep : Bool) (d : CachedDir)
    (desc : IconDescriptor) (path : List String) : Option (List IconLocation × Nat) :=
  match d with
  | .mk name files subdirs => do
    let desc ← desc.apply name
    let (subOut, subFound) ←
      if deep then CachedDir.findList icon_name deep subdirs desc path
      else pure ([], 0)
    let (fileOut, fileFound) := findFiles icon_name desc path files
    pure (subOut ++ fileOut, subFound + fileFound)

/-- The `for dir in self.dirs()` recursion of `CachedDir::find`. -/
def CachedDir.findList (icon_name : String) (deep : Bool) (ds : List CachedDir)
    (desc : IconDescriptor) (parentPath : List String) : Option (List IconLocation × Nat) :=
  match ds with
  | [] => pure ([], 0)
  | d :: rest => do
    let (o₁, f₁) ← CachedDir.find icon_name deep d desc (parentPath ++ [d.name])
    let (o₂, f₂) ← CachedDir.findList icon_name deep rest desc parentPath
    pure (o₁ ++ o₂, f₁ + f₂)

end

/-- `IconFinder` from `finder.rs`: the cached roots.  (The filesystem prefix
of each root's path is dropped; each root's path is just its own name.) -/
structure IconFinder where
  dirs : List CachedDir

/-- `IconFinder::start_find`: one staged step on one root. -/
def IconFinder.start_find (dir : CachedDir) (icon_name : String) (step : Nat) :
    Option (List IconLocation × Nat) :=
  match step with
  | 0 =>
    match dir.join "hicolor" with
    | some subdir =>
      CachedDir.find icon_name true subdir
        { IconDescriptor.default with theme := some "hicolor" } [dir.name, "hicolor"]
    | none => pure ([], 0)
  | 1 =>
    match dir.join "default" with
    | some subdir =>
      CachedDir.find icon_name true subdir
        { IconDescriptor.default with theme := some "default" } [dir.name, "default"]
    | none => pure ([], 0)
  | 2 => CachedDir.find icon_name false dir IconDescriptor.default [dir.name]
  | 3 => CachedDir.find icon_name true dir IconDescriptor.default [dir.name]
  | _ => pure ([], 0)

/-- The `for dir in &mut self.dirs` loop inside `IconFinder::find` for one
stage: accumulate output over all roots and OR together `found > 0`. -/
def IconFinder.runStage (dirs : List CachedDir) (icon_name : String) (step : Nat) :
    Option (List IconLocation × Bool) :=
  match dirs with
  | [] => pure ([], false)
  | d :: rest => do
    let (o₁, f₁) ← IconFinder.start_find d icon_name step
    let (o₂, any₂) ← IconFinder.runStage rest icon_name step
    pure (o₁ ++ o₂, decide (0 < f₁) || any₂)

/-- The `for i in 0..4 { ... if found_any { break } }` loop of
`IconFinder::find`: returns the accumulated output and the list of stages that
were actually run. -/
def IconFinder.stageLoop (dirs : List CachedDir) (icon_name : String) :
    List Nat → Option (List IconLocation × List Nat)
  | [] => pure ([], [])
  | i :: rest => do
    let (out, foundAny) ← IconFinder.runStage dirs icon_name i
    if foundAny then pure (out, [i])
    else do
      let (out₂, stages) ← IconFinder.stageLoop dirs icon_name rest
      pure (out ++ out₂, i :: stages)

/-- `IconFinder::find`, additionally reporting which stages ran. -/
def IconFinder.findStages (f : IconFinder) (icon_name : String) :
    Option (List IconLocation × List Nat) := do
  let (out, stages) ← IconFinder.stageLoop f.dirs icon_name [0, 1, 2, 3]
  let any_exact_matches := out.any (fun v => v.file_name = icon_name)
  let out := if any_exact_matches then out.filter (fun v => v.file_name = icon_name) else out
  pure (out, stages)

/-- `IconFinder::find` from `finder.rs`. -/
def IconFinder.find (f : IconFinder) (icon_name : String) : Option (List IconLocation) :=
  (f.findStages icon_name).map (fun p => p.1)

/-! ### `mod.rs` / `loader.rs`: the cache manager and the loader front end -/

/-- `AppId` from `apps/mod.rs` (a base64-encoded hash string). -/
abbrev AppId := String

/-- The slice of `App` (from `apps/mod.rs`) that `AppIconManager` reads. -/
structure App where
  id : AppId
  name : String
  icon : Option String
  deriving DecidableEq, Repr

/-- `IconLocation` from `apps/icons/mod.rs` (the cache-slot handle). -/
structure SlotLocation where
  app_id : AppId
  export_id : Nat
  freed : Bool
  path : String
  deriving DecidableEq, Repr

/-- `LoadIconTaskRequest` from `loader.rs`. -/
structure LoadIconTaskRequest where
  id : AppId
  app_name : String
  icon : String
  location : SlotLocation
  deriving DecidableEq, Repr

/-- `LoadIconTaskResponse` from `loader.rs`; the `Report` payload of `Fail`
is kept as its message string. -/
inductive LoadIconTaskResponse where
  | success (location : SlotLocation)
  | fail (msg : String) (location : SlotLocation)
  deriving DecidableEq, Repr

/-- The foreground-observable state of `IconLoader` from `loader.rs`:
the local queue, the bounded (capacity-16) request channel's in-flight
contents in send order, and the pending worker responses. -/
structure IconLoader where
  queue : List LoadIconTaskRequest
  chan : List LoadIconTaskRequest
  responses : List LoadIconTaskResponse
  deriving DecidableEq, Repr

/-- `IconLoader::new`: empty queue and channels (the spawned worker has
consumed and produced nothing yet). -/
def IconLoader.new : IconLoader :=
  { queue := [], chan := [], responses := [] }

/-- `IconLoader::enqueue`: push onto the end of the local queue. -/
def IconLoader.enqueue (l : IconLoader) (request : LoadIconTaskRequest) : IconLoader :=
  { l with queue := l.queue ++ [request] }

/-- The send loop of `IconLoader::tick` on the reversed queue (`Vec::pop`
takes the most recently pushed element): `free` is the channel's remaining
capacity, `remaining` the per-tick budget of 32.  Returns the unsent part of
the reversed queue and the sent requests in send order. -/
def IconLoader.tickSendAux :
    List LoadIconTaskRequest → Nat → Nat → List LoadIconTaskRequest × List LoadIconTaskRequest
  | [], _, _ => ([], [])
  | v :: rest, free, remaining =>
    if free = 0 then (v :: rest, [])
    else if remaining ≤ 1 then (rest, [v])
    else
      let (q, sent) := IconLoader.tickSendAux rest (free - 1) (remaining - 1)
      (q, v :: sent)

/-- `IconLoader::tick` from `loader.rs`: drain up to 32 queued requests into
the bounded channel (newest first, stopping when the channel is full), then
drain all pending responses.  Returns the new loader state, the requests sent
this tick in send order, and the drained responses. -/
def IconLoader.tick (l : IconLoader) :
    IconLoader × List LoadIconTaskRequest × List LoadIconTaskResponse :=
  let (revQueue, sent) := IconLoader.tickSendAux l.queue.reverse (16 - l.chan.length) 32
  ({ queue := revQueue.reverse, chan := l.chan ++ sent, responses := [] }, sent, l.responses)

/-- `IconLoader::finish` from `loader.rs`: close the request channel, join the
worker (which first drains the channel, producing `workerResponses`, one per
in-flight request), synthesize a cancelled failure for every still-queued
request, then drain every remaining response. -/
def IconLoader.finish (l : IconLoader) (workerResponses : List LoadIconTaskResponse) :
    List LoadIconTaskResponse :=
  l.queue.map (fun v => LoadIconTaskResponse.fail "Cancelled" v.location)
    ++ (l.responses ++ workerResponses)

/-- `IconEntryModel` from `apps/icons/mod.rs`. -/
structure IconEntryModel where
  source_location : String
  export_id : Option Nat
  deriving DecidableEq, Repr

/-- Association-list lookup (`HashMap::get`). -/
def lookupEntry : List (AppId × IconEntryModel) → AppId → Option IconEntryModel
  | [], _ => none
  | (k, v) :: rest, key => if k = key then some v else lookupEntry rest key

/-- Association-list insert-or-replace (`HashMap::insert`). -/
def insertEntry : List (AppId × IconEntryModel) → AppId → IconEntryModel →
    List (AppId × IconEntryModel)
  | [], key, v => [(key, v)]
  | (k, w) :: rest, key, v =>
    if k = key then (key, v) :: rest else (k, w) :: insertEntry rest key v

/-- Association-list removal (`HashMap::remove`). -/
def eraseEntry : List (AppId × IconEntryModel) → AppId → List (AppId × IconEntryModel)
  | [], _ => []
  | (k, w) :: rest, key => if k = key then rest else (k, w) :: eraseEntry rest key

/-- `IconsModel` from `apps/icons/mod.rs`. -/
structure IconsModel where
  values : List (AppId × IconEntryModel)
  deriving DecidableEq, Repr

/-- The linear scan of `IconsModel::find_free_id`, with enough fuel to clear
every used id. -/
def findFreeFrom (used : List Nat) : Nat → Nat → Nat
  | 0, i => i
  | fuel + 1, i => if i ∈ used then findFreeFrom used fuel (i + 1) else i

/-- `IconsModel::find_free_id`: the smallest id not currently exported. -/
def IconsModel.find_free_id (m : IconsModel) : Nat :=
  let used := m.values.filterMap (fun kv => kv.2.export_id)
  findFreeFrom used (used.length + 1) 0

/-- `HashSet`-style insertion for `seen_icons`. -/
def insertSeen (seen : List AppId) (id : AppId) : List AppId :=
  if id ∈ seen then seen else seen ++ [id]

/-- `AppIconManager` from `apps/icons/mod.rs` (the filesystem paths and the
statistics-only `extensions` map are dropped). -/
structure AppIconManager where
  model : IconsModel
  seen_icons : List AppId
  loader : Option IconLoader
  to_load : Nat
  to_load_finished : Nat
  deriving DecidableEq, Repr

/-- `AppIconManager::icon_path` reduced to the file name `<id>.png`. -/
def iconPath (id : Nat) : String :=
  toString id ++ ".png"

/-- `AppIconManager::new_location`: allocate a free export id, record the
pending mapping, and build the cache-slot handle. -/
def AppIconManager.new_location (s : AppIconManager) (source_location : String)
    (app : AppId) : AppIconManager × SlotLocation :=
  let id := s.model.find_free_id
  let s := { s with model := ⟨insertEntry s.model.values app
    { source_location := source_location, export_id := some id }⟩ }
  (s, { app_id := app, export_id := id, path := iconPath id, freed := false })

/-- `AppIconManager::prepare_icon` from `apps/icons/mod.rs`. -/
def AppIconManager.prepare_icon (s : AppIconManager) (app : App) : AppIconManager :=
  match app.icon with
  | none => s
  | some source =>
    let s := { s with seen_icons := insertSeen s.seen_icons app.id }
    let skip :=
      match lookupEntry s.model.values app.id with
      | some icon => decide (icon.source_location = source)
      | none => false
    if skip then s
    else
      let s := { s with to_load := s.to_load + 1 }
      let (s, icon_location) := s.new_location source app.id
      let loader := s.loader.getD IconLoader.new
      let loader := loader.enqueue
        { id := app.id, app_name := app.name, icon := source, location := icon_location }
      { s with loader := some loader }

/-- `AppIconManager::free_location`: `none` models the `unwrap()` on a missing
entry or the failing `assert_eq!` in the in-use branch. -/
def AppIconManager.free_location (s : AppIconManager) (in_use : Bool)
    (id : SlotLocation) : Option AppIconManager :=
  match lookupEntry s.model.values id.app_id with
  | none => none
  | some entry =>
    if in_use then
      if entry.export_id = some id.export_id then some s else none
    else
      some { s with model := ⟨insertEntry s.model.values id.app_id
        { entry with export_id := none }⟩ }

/-- `AppIconManager::handle_responses`. -/
def AppIconManager.handle_responses (s : AppIconManager) :
    List LoadIconTaskResponse → Option AppIconManager
  | [] => some s
  | response :: rest => do
    let s := { s with to_load_finished := s.to_load_finished + 1 }
    let s ←
      match response with
      | LoadIconTaskResponse.success location => s.free_location true location
      | LoadIconTaskResponse.fail _ location => s.free_location false location
    s.handle_responses rest

/-- `AppIconManager::remove_icon`: drop the mapping entry (the cache-file
deletion is a filesystem side effect with no model state). -/
def AppIconManager.remove_icon (s : AppIconManager) (app : AppId) : AppIconManager :=
  match lookupEntry s.model.values app with
  | none => s
  | some _ => { s with model := ⟨eraseEntry s.model.values app⟩ }

/-- `AppIconManager::purge_unseen_icons`. -/
def AppIconManager.purge_unseen_icons (s : AppIconManager) : AppIconManager :=
  let to_remove := (s.model.values.map (fun kv => kv.1)).filter
    (fun id => ¬ id ∈ s.seen_icons)
  to_remove.foldl AppIconManager.remove_icon s

/-- `AppIconManager::save` (the on-disk write has no model state). -/
def AppIconManager.save (s : AppIconManager) : AppIconManager :=
  s.purge_unseen_icons

/-- `AppIconManager::tick` from `apps/icons/mod.rs`: if a loader exists, tick
it, apply its responses, and return `true`; otherwise return `false`. -/
def AppIconManager.tick (s : AppIconManager) : Option (AppIconManager × Bool) :=
  match s.loader with
  | some loader =>
    let (loader, _, responses) := loader.tick
    let s := { s with loader := some loader }
    (s.handle_responses responses).map (fun s => (s, true))
  | none => some (s, false)

/-- `AppIconManager::finish` from `apps/icons/mod.rs`: take and finish the
loader, apply every resulting response, then save (purging unseen entries).
`workerResponses` are the responses the worker produces for requests already
in the channel while draining it after shutdown. -/
def AppIconManager.finish (s : AppIconManager)
    (workerResponses : List LoadIconTaskResponse) : Option AppIconManager :=
  let (s, responses) :=
    match s.loader with
    | some l => ({ s with loader := none }, l.finish workerResponses)
    | none => (s, [])
  (s.handle_responses responses).map AppIconManager.save

/-- A concrete render request (fixture for counterexamples). -/
def sampleRequestA : LoadIconTaskRequest :=
  { id := "a", app_name := "AppA", icon := "icon-a",
    location := { app_id := "a", export_id := 0, freed := false, path := "0.png" } }

/-- A second concrete render request (fixture for counterexamples). -/
def sampleRequestB : LoadIconTaskRequest :=
  { id := "b", app_name := "AppB", icon := "icon-b",
    location := { app_id := "b", export_id := 1, freed := false, path := "1.png" } }

end Ignition

/-! ### Theorems -/

namespace Ignition

/-- C3, counterexample.  The claim says Scalable's ranking score is strictly
higher than that of every Fixed size not equal to the target; but at target 32
a `Fixed 33` candidate scores `u16::MAX - 1`, exactly Scalable's score, so the
scores are equal and Scalable does not strictly outrank it. -/
theorem C3_counterexample :
    IconDescriptor.ord { size := some (IconSize.fixed 33), scale := 1, theme := none } 32 =
      IconDescriptor.ord { size := some IconSize.scalable, scale := 1, theme := none } 32 ∧
    ¬ IconDescOrd.lt
        (IconDescriptor.ord { size := some (IconSize.fixed 33), scale := 1, theme := none } 32)
        (IconDescriptor.ord { size := some IconSize.scalable, scale := 1, theme := none } 32) := by
  decide

/-- C3, amended.  For every target at most 32767 (so that the undersized
branch's `u16` subtraction cannot wrap) and every `u16` size `k ≠ target`:
an exact `Fixed target` strictly outranks `Fixed k`; `Scalable` strictly
outranks `Fixed k` whenever `k ≠ target + 1`; and `Fixed (target + 1)` ties
`Scalable`'s size score exactly. -/
theorem C3_ord_amended (target k s s' : Nat) (th th' : Option String)
    (ht : target ≤ 32767) (hk : k ≤ 65535) (hne : k ≠ target) :
    IconDescOrd.lt
      (IconDescriptor.ord { size := some (IconSize.fixed k), scale := s, theme := th } target)
      (IconDescriptor.ord { size := some (IconSize.fixed target), scale := s', theme := th' } target) ∧
    (k ≠ target + 1 →
      IconDescOrd.lt
        (IconDescriptor.ord { size := some (IconSize.fixed k), scale := s, theme := th } target)
        (IconDescriptor.ord { size := some IconSize.scalable, scale := s', theme := th' } target)) ∧
    (k = target + 1 →
      (IconDescriptor.ord { size := some (IconSize.fixed k), scale := s, theme := th } target).size_score =
        (IconDescriptor.ord { size := some IconSize.scalable, scale := s', theme := th' } target).size_score) := by
  have hfix : ∀ sc t,
      (IconDescriptor.ord { size := some (IconSize.fixed k), scale := sc, theme := t } target).size_score =
        if k = target then 65535
        else if target < k then 65535 - (k - target)
        else (65535 / 2 + 65536 - (target - k)) % 65536 := fun _ _ => rfl
  have hexact : ∀ sc t,
      (IconDescriptor.ord { size := some (IconSize.fixed target), scale := sc, theme := t } target).size_score =
        65535 := by
    intro sc t
    simp [IconDescriptor.ord]
  have hscal : ∀ sc t,
      (IconDescriptor.ord { size := some IconSize.scalable, scale := sc, theme := t } target).size_score =
        65534 := fun _ _ => rfl
  refine ⟨?_, ?_, ?_⟩
  · left
    rw [hfix, hexact, if_neg hne]
    split <;> omega
  · intro hne1
    left
    rw [hfix, hscal, if_neg hne]
    split <;> omega
  · intro he
    rw [hfix, hscal, if_neg hne]
    split <;> omega

/-- C3, witness for the amended theorem at target 32, size 48, scale 1. -/
theorem C3_ord_amended_witness :
    IconDescOrd.lt
      (IconDescriptor.ord { size := some (IconSize.fixed 48), scale := 1, theme := none } 32)
      (IconDescriptor.ord { size := some (IconSize.fixed 32), scale := 1, theme := none } 32) :=
  (C3_ord_amended 32 48 1 1 none none (by decide) (by decide) (by decide)).1

/-- `splitOnce` finds nothing exactly when the separator is absent. -/
theorem splitOnce_eq_none_iff (sep : Char) (l : List Char) :
    splitOnce sep l = none ↔ sep ∉ l := by
  induction l with
  | nil => simp [splitOnce]
  | cons c t ih =>
    by_cases hc : c = sep
    · subst hc; simp [splitOnce]
    · simp only [splitOnce, if_neg hc, List.mem_cons]
      cases h : splitOnce sep t <;> simp_all [eq_comm]

/-- `splitOnce` splits at the first occurrence of the separator. -/
theorem splitOnce_append (sep : Char) (l r : List Char) (h : sep ∉ l) :
    splitOnce sep (l ++ sep :: r) = some (l, r) := by
  induction l with
  | nil => simp [splitOnce]
  | cons c t ih =>
    simp only [List.mem_cons, not_or] at h
    have hne : ¬c = sep := fun hc => h.1 hc.symm
    have hstep : splitOnce sep (c :: (t ++ sep :: r)) =
        (splitOnce sep (t ++ sep :: r)).map (fun p => (c :: p.1, p.2)) := by
      simp [splitOnce, hne]
    rw [List.cons_append, hstep, ih h.2]
    rfl

theorem applyScalable_scale (d : IconDescriptor) (cs : List Char) :
    (applyScalable d cs).scale = d.scale := by
  unfold applyScalable; split <;> rfl

theorem applyWxH_scale (d : IconDescriptor) (cs : List Char) :
    (applyWxH d cs).scale = d.scale := by
  unfold applyWxH
  repeat' split
  all_goals rfl

theorem applyBareNum_scale (d : IconDescriptor) (cs : List Char) :
    (applyBareNum d cs).scale = d.scale := by
  unfold applyBareNum; split <;> rfl

theorem applyTheme_scale (d : IconDescriptor) (cs : List Char) :
    (applyTheme d cs).scale = d.scale := by
  unfold applyTheme; split <;> rfl

/-- `applyRest` never touches the scale. -/
theorem applyRest_scale (d : IconDescriptor) (cs : List Char) :
    (d.applyRest cs).scale = d.scale := by
  unfold IconDescriptor.applyRest
  rw [applyTheme_scale, applyBareNum_scale, applyWxH_scale, applyScalable_scale]

theorem applyScalable_theme (d : IconDescriptor) (cs : List Char) :
    (applyScalable d cs).theme = d.theme := by
  unfold applyScalable; split <;> rfl

theorem applyWxH_theme (d : IconDescriptor) (cs : List Char) :
    (applyWxH d cs).theme = d.theme := by
  unfold applyWxH
  repeat' split
  all_goals rfl

theorem applyBareNum_theme (d : IconDescriptor) (cs : List Char) :
    (applyBareNum d cs).theme = d.theme := by
  unfold applyBareNum; split <;> rfl

theorem applyTheme_of_some (d : IconDescriptor) (cs : List Char) (t : String)
    (h : d.theme = some t) : (applyTheme d cs).theme = some t := by
  unfold applyTheme
  rw [h]
  exact h

theorem applyTheme_size (d : IconDescriptor) (cs : List Char) :
    (applyTheme d cs).size = d.size := by
  unfold applyTheme; split <;> rfl

/-- `applyRest` never overwrites an already-set theme. -/
theorem applyRest_theme_of_some (d : IconDescriptor) (cs : List Char) (t : String)
    (h : d.theme = some t) : (d.applyRest cs).theme = some t := by
  unfold IconDescriptor.applyRest
  apply applyTheme_of_some
  rw [applyBareNum_theme, applyWxH_theme, applyScalable_theme]
  exact h

theorem applyBareNum_of_some (d : IconDescriptor) (cs : List Char) (k : Nat)
    (h : uFromStr 65535 cs = some k) :
    (applyBareNum d cs).size = some (IconSize.fixed k) := by
  unfold applyBareNum
  rw [h]

/-- A directory name that parses as a bare integer always overwrites the
size with `Fixed` of that integer. -/
theorem applyRest_size_of_numeric (d : IconDescriptor) (cs : List Char) (k : Nat)
    (h : uFromStr 65535 cs = some k) :
    (d.applyRest cs).size = some (IconSize.fixed k) := by
  unfold IconDescriptor.applyRest
  rw [applyTheme_size, applyBareNum_of_some _ _ _ h]

theorem applyScalable_of_ne (d : IconDescriptor) (cs : List Char)
    (h : cs ≠ "scalable".data) : applyScalable d cs = d := by
  unfold applyScalable
  rw [if_neg h]

theorem applyWxH_of_neutral (d : IconDescriptor) (cs : List Char)
    (h : (cs.filter (fun c => c = 'x')).length = 1 →
      ∀ l r, splitOnce 'x' cs = some (l, r) →
        uFromStr 65535 l = none ∨ uFromStr 65535 r = none) :
    applyWxH d cs = d := by
  unfold applyWxH
  split
  · rename_i hcount
    cases hsplit : splitOnce 'x' cs with
    | none => rfl
    | some p =>
      obtain ⟨l, r⟩ := p
      rcases h hcount l r hsplit with hcon | hcon
      · simp [hcon]
      · simp only [hcon]
        cases hl : uFromStr 65535 l <;> rfl
  · rfl

theorem applyBareNum_of_none (d : IconDescriptor) (cs : List Char)
    (h : uFromStr 65535 cs = none) : applyBareNum d cs = d := by
  unfold applyBareNum
  rw [h]

/-- A directory name that parses as no size form at all leaves size and scale
unchanged. -/
theorem applyRest_of_neutral (d : IconDescriptor) (cs : List Char)
    (h1 : cs ≠ "scalable".data)
    (h2 : (cs.filter (fun c => c = 'x')).length = 1 →
      ∀ l r, splitOnce 'x' cs = some (l, r) →
        uFromStr 65535 l = none ∨ uFromStr 65535 r = none)
    (h3 : uFromStr 65535 cs = none) :
    (d.applyRest cs).size = d.size ∧ (d.applyRest cs).scale = d.scale := by
  unfold IconDescriptor.applyRest
  rw [applyScalable_of_ne _ _ h1, applyWxH_of_neutral _ _ h2, applyBareNum_of_none _ _ h3]
  exact ⟨applyTheme_size d cs, applyTheme_scale d cs⟩

theorem mem_x_of_count_one (cs : List Char)
    (h : (cs.filter (fun c => c = 'x')).length = 1) : 'x' ∈ cs := by
  have hne : cs.filter (fun c => c = 'x') ≠ [] := by
    intro hc
    rw [hc] at h
    cases h
  obtain ⟨c, hc⟩ := List.exists_mem_of_ne_nil _ hne
  have hm := List.mem_filter.mp hc
  have hcx : c = 'x' := by simpa using hm.2
  exact hcx ▸ hm.1

theorem digitsVal_none_of_mem_x (cs : List Char) (h : 'x' ∈ cs) :
    digitsVal cs = none := by
  unfold digitsVal
  rw [if_neg]
  rintro ⟨-, hall⟩
  have hx := List.all_eq_true.mp hall 'x' h
  exact absurd hx (by decide)

theorem uFromStr_none_of_mem_x (cs : List Char) (h : 'x' ∈ cs) :
    uFromStr 65535 cs = none := by
  rcases cs with - | ⟨c, rest⟩
  · cases h
  · by_cases hc : c = '+'
    · subst hc
      have hx : 'x' ∈ rest := by
        rcases List.mem_cons.mp h with h' | h'
        · exact absurd h' (by decide)
        · exact h'
      show (match digitsVal rest with
        | some v => if v ≤ 65535 then some v else none
        | none => none) = none
      rw [digitsVal_none_of_mem_x rest hx]
    · unfold uFromStr
      split
      · rename_i r heq
        injection heq with h1 h2
        exact absurd h1 hc
      · show (match digitsVal (c :: rest) with
          | some v => if v ≤ 65535 then some v else none
          | none => none) = none
        rw [digitsVal_none_of_mem_x _ h]

theorem ne_scalable_of_mem_x (cs : List Char) (h : 'x' ∈ cs) :
    cs ≠ "scalable".data :=
  fun hc => absurd (hc ▸ h) (by decide)

theorem applyWxH_of_count_ne (d : IconDescriptor) (cs : List Char)
    (h : (cs.filter (fun c => c = 'x')).length ≠ 1) : applyWxH d cs = d := by
  unfold applyWxH
  rw [if_neg h]

/-- The literal name `scalable` always overwrites the size with Scalable. -/
theorem applyRest_size_scalable (d : IconDescriptor) :
    (d.applyRest "scalable".data).size = some IconSize.scalable := by
  unfold IconDescriptor.applyRest
  rw [applyTheme_size, applyBareNum_of_none _ _ (by decide),
    applyWxH_of_count_ne _ _ (by decide)]
  unfold applyScalable
  rw [if_pos rfl]

theorem applyWxH_of_parse (d : IconDescriptor) (cs l r : List Char) (a b : Nat)
    (hcount : (cs.filter (fun c => c = 'x')).length = 1)
    (hsplit : splitOnce 'x' cs = some (l, r))
    (hl : uFromStr 65535 l = some a) (hr : uFromStr 65535 r = some b) :
    applyWxH d cs = { d with size := some (IconSize.fixed (max a b)) } := by
  unfold applyWxH
  rw [if_pos hcount]
  simp only [hsplit, hl, hr]

/-- A `WxH` name whose halves both parse always overwrites the size with
`Fixed (max W H)`. -/
theorem applyRest_size_WxH (d : IconDescriptor) (cs l r : List Char) (a b : Nat)
    (hcount : (cs.filter (fun c => c = 'x')).length = 1)
    (hsplit : splitOnce 'x' cs = some (l, r))
    (hl : uFromStr 65535 l = some a) (hr : uFromStr 65535 r = some b) :
    (d.applyRest cs).size = some (IconSize.fixed (max a b)) := by
  have hx := mem_x_of_count_one cs hcount
  unfold IconDescriptor.applyRest
  rw [applyScalable_of_ne _ _ (ne_scalable_of_mem_x cs hx),
    applyWxH_of_parse d cs l r a b hcount hsplit hl hr,
    applyBareNum_of_none _ _ (uFromStr_none_of_mem_x cs hx), applyTheme_size]

/-- When `apply` succeeds on a name with a `@`-suffix, the result is
`applyRest` of the stripped prefix on the descriptor whose scale was set to
the value of the suffix's first character. -/
theorem apply_at_suffix (d : IconDescriptor) (n : String) (d' : IconDescriptor)
    (l r : List Char) (c : Char)
    (h : d.apply n = some d')
    (hsp : splitOnce '@' n.data = some (l, r))
    (hc : r.head? = some c) :
    d' = IconDescriptor.applyRest { d with scale := c.toNat - 48 } l := by
  unfold IconDescriptor.apply at h
  rw [hsp] at h
  have h2 : (if 1 ≤ r.length ∧ r.length ≤ 2 then
      match r.head? with
      | some c =>
        (digitVal c).map (fun v => IconDescriptor.applyRest { d with scale := v } l)
      | none => none
    else none) = some d' := h
  split at h2
  · rw [hc] at h2
    have h3 : (digitVal c).map
        (fun v => IconDescriptor.applyRest { d with scale := v } l) = some d' := h2
    cases hdv : digitVal c with
    | none => rw [hdv] at h3; cases h3
    | some v =>
      rw [hdv] at h3
      have hv : v = c.toNat - 48 := by
        unfold digitVal at hdv
        split at hdv
        · exact (Option.some_inj.mp hdv).symm
        · cases hdv
      rw [← Option.some_inj.mp h3, hv]
  · cases h2

/-- C1, counterexample.  The claim says a later-applied directory name never
overwrites an already-set size; but `apply` on a descriptor whose size is
already `Fixed 32` with the directory name `48x48` replaces the size with
`Fixed 48`. -/
theorem C1_counterexample :
    IconDescriptor.apply
        { size := some (IconSize.fixed 32), scale := 1, theme := some "t" } "48x48" =
      some { size := some (IconSize.fixed 48), scale := 1, theme := some "t" } ∧
    some (IconSize.fixed 48) ≠ some (IconSize.fixed 32) := by
  decide

/-- C1, amended.  `apply` never overwrites an already-set theme (it only
backfills it when absent).  Size and scale, however, are always overwritten
by a directory name that parses — the deepest directory's interpretation
wins: a `@`-suffix overwrites the scale with the value of its first
character, and the name (after any suffix stripping) overwrites the size
when it is the literal `scalable` (→ Scalable), a `WxH` whose halves both
parse as `u16` (→ `Fixed (max W H)`), or a bare integer (→ `Fixed` of it);
size and scale are preserved only when the name parses as none of these
forms. -/
theorem C1_apply_amended (d : IconDescriptor) (n : String) (d' : IconDescriptor)
    (h : d.apply n = some d') :
    (∀ t, d.theme = some t → d'.theme = some t) ∧
    (splitOnce '@' n.data = none →
      (n.data = "scalable".data → d'.size = some IconSize.scalable) ∧
      (∀ l r a b, (n.data.filter (fun c => c = 'x')).length = 1 →
        splitOnce 'x' n.data = some (l, r) →
        uFromStr 65535 l = some a → uFromStr 65535 r = some b →
        d'.size = some (IconSize.fixed (max a b))) ∧
      (∀ k, uFromStr 65535 n.data = some k → d'.size = some (IconSize.fixed k)) ∧
      (n.data ≠ "scalable".data →
        ((n.data.filter (fun c => c = 'x')).length = 1 →
          ∀ l r, splitOnce 'x' n.data = some (l, r) →
            uFromStr 65535 l = none ∨ uFromStr 65535 r = none) →
        uFromStr 65535 n.data = none →
        d'.size = d.size ∧ d'.scale = d.scale)) ∧
    (∀ l r c, splitOnce '@' n.data = some (l, r) → r.head? = some c →
      d'.scale = c.toNat - 48 ∧
      (l = "scalable".data → d'.size = some IconSize.scalable) ∧
      (∀ l₂ r₂ a b, (l.filter (fun c => c = 'x')).length = 1 →
        splitOnce 'x' l = some (l₂, r₂) →
        uFromStr 65535 l₂ = some a → uFromStr 65535 r₂ = some b →
        d'.size = some (IconSize.fixed (max a b))) ∧
      (∀ k, uFromStr 65535 l = some k → d'.size = some (IconSize.fixed k))) := by
  cases hsp : splitOnce '@' n.data with
  | none =>
    have hd' : d' = d.applyRest n.data := by
      unfold IconDescriptor.apply at h
      rw [hsp] at h
      cases h
      rfl
    subst hd'
    refine ⟨fun t ht => applyRest_theme_of_some d n.data t ht, ?_, ?_⟩
    · intro _
      refine ⟨?_, ?_, ?_, ?_⟩
      · intro hsc
        rw [hsc]
        exact applyRest_size_scalable d
      · intro l r a b hcount hsplit hl hr
        exact applyRest_size_WxH d n.data l r a b hcount hsplit hl hr
      · intro k hk
        exact applyRest_size_of_numeric d n.data k hk
      · intro h1 h2 h3
        exact applyRest_of_neutral d n.data h1 h2 h3
    · intro l r c hsp' _
      cases hsp'
  | some p =>
    obtain ⟨l, r⟩ := p
    refine ⟨?_, ?_, ?_⟩
    · intro t ht
      unfold IconDescriptor.apply at h
      rw [hsp] at h
      have h2 : (if 1 ≤ r.length ∧ r.length ≤ 2 then
          match r.head? with
          | some c =>
            (digitVal c).map (fun v => IconDescriptor.applyRest { d with scale := v } l)
          | none => none
        else none) = some d' := h
      split at h2
      · cases hh : r.head? with
        | none => rw [hh] at h2; cases h2
        | some c =>
          rw [hh] at h2
          have h3 : (digitVal c).map
              (fun v => IconDescriptor.applyRest { d with scale := v } l) = some d' := h2
          simp only [Option.map_eq_some'] at h3
          obtain ⟨v, hv, hfd⟩ := h3
          subst hfd
          exact applyRest_theme_of_some _ l t ht
      · cases h2
    · intro hn
      cases hn
    · intro l' r' c hsp' hc
      injection hsp' with hp
      injection hp with hl' hr'
      subst hl'
      subst hr'
      have hd' := apply_at_suffix d n d' l r c h hsp hc
      subst hd'
      refine ⟨applyRest_scale _ _, ?_, ?_, ?_⟩
      · intro hsc
        rw [hsc]
        exact applyRest_size_scalable _
      · intro l₂ r₂ a b hcount hsplit hl hr
        exact applyRest_size_WxH _ l l₂ r₂ a b hcount hsplit hl hr
      · intro k hk
        exact applyRest_size_of_numeric _ l k hk

/-- C1, witness for the amended theorem: a descriptor whose size is already
`Fixed 32` and whose theme is `"t"`, applied to the directory name
`scalable` — the theme survives and the size is overwritten to Scalable. -/
theorem C1_apply_amended_witness :
    (∀ t, (some "t" : Option String) = some t →
      (IconDescriptor.mk (some IconSize.scalable) 1 (some "t")).theme = some t) ∧
    (splitOnce '@' "scalable".data = none →
      ("scalable".data = "scalable".data →
        (IconDescriptor.mk (some IconSize.scalable) 1 (some "t")).size =
          some IconSize.scalable) ∧
      (∀ l r a b, ("scalable".data.filter (fun c => c = 'x')).length = 1 →
        splitOnce 'x' "scalable".data = some (l, r) →
        uFromStr 65535 l = some a → uFromStr 65535 r = some b →
        (IconDescriptor.mk (some IconSize.scalable) 1 (some "t")).size =
          some (IconSize.fixed (max a b))) ∧
      (∀ k, uFromStr 65535 "scalable".data = some k →
        (IconDescriptor.mk (some IconSize.scalable) 1 (some "t")).size =
          some (IconSize.fixed k)) ∧
      ("scalable".data ≠ "scalable".data →
        (("scalable".data.filter (fun c => c = 'x')).length = 1 →
          ∀ l r, splitOnce 'x' "scalable".data = some (l, r) →
            uFromStr 65535 l = none ∨ uFromStr 65535 r = none) →
        uFromStr 65535 "scalable".data = none →
        (IconDescriptor.mk (some IconSize.scalable) 1 (some "t")).size =
          (IconDescriptor.mk (some (IconSize.fixed 32)) 1 (some "t")).size ∧
        (IconDescriptor.mk (some IconSize.scalable) 1 (some "t")).scale =
          (IconDescriptor.mk (some (IconSize.fixed 32)) 1 (some "t")).scale)) ∧
    (∀ l r c, splitOnce '@' "scalable".data = some (l, r) → r.head? = some c →
      (IconDescriptor.mk (some IconSize.scalable) 1 (some "t")).scale = c.toNat - 48 ∧
      (l = "scalable".data →
        (IconDescriptor.mk (some IconSize.scalable) 1 (some "t")).size =
          some IconSize.scalable) ∧
      (∀ l₂ r₂ a b, (l.filter (fun c => c = 'x')).length = 1 →
        splitOnce 'x' l = some (l₂, r₂) →
        uFromStr 65535 l₂ = some a → uFromStr 65535 r₂ = some b →
        (IconDescriptor.mk (some IconSize.scalable) 1 (some "t")).size =
          some (IconSize.fixed (max a b))) ∧
      (∀ k, uFromStr 65535 l = some k →
        (IconDescriptor.mk (some IconSize.scalable) 1 (some "t")).size =
          some (IconSize.fixed k))) :=
  C1_apply_amended
    { size := some (IconSize.fixed 32), scale := 1, theme := some "t" } "scalable"
    { size := some IconSize.scalable, scale := 1, theme := some "t" }
    (by decide)

/-- C6, counterexample.  The claim says `apply` succeeds for a `@Nx` suffix
where `N` has one or two digits; but for the two-digit `N = 16` the source
asserts `(1..=2).contains(&scale.len())` on the suffix including the `x`
(length 3 here), so `apply` panics — modelled as `none`. -/
theorem C6_counterexample :
    IconDescriptor.apply IconDescriptor.default "48@16x" = none := by
  decide

/-- C6, amended.  For a `@Nx` suffix whose `N` is a single digit (so the part
after `@` is at most two characters long), `apply` succeeds, sets the scale
to that digit's value, strips the suffix, and parses the remaining prefix for
size and theme. -/
theorem C6_apply_scale_suffix (d : IconDescriptor) (base : List Char) (c : Char)
    (hd : c.isDigit = true) (hb : '@' ∉ base) :
    IconDescriptor.apply d (String.mk (base ++ '@' :: c :: ['x'])) =
      some (IconDescriptor.applyRest { d with scale := c.toNat - 48 } base) ∧
    (IconDescriptor.applyRest { d with scale := c.toNat - 48 } base).scale = c.toNat - 48 := by
  constructor
  · unfold IconDescriptor.apply
    have hsp : splitOnce '@' (String.mk (base ++ '@' :: c :: ['x'])).data =
        some (base, c :: ['x']) := splitOnce_append '@' base (c :: ['x']) hb
    rw [hsp]
    have hdv : digitVal c = some (c.toNat - 48) := by
      unfold digitVal; rw [if_pos hd]
    simp [hdv]
  · rw [applyRest_scale]

/-- C6, witness for the amended theorem: directory name `32@2x`. -/
theorem C6_apply_scale_suffix_witness :
    IconDescriptor.apply IconDescriptor.default (String.mk ("32".data ++ '@' :: '2' :: ['x'])) =
      some (IconDescriptor.applyRest
        { IconDescriptor.default with scale := '2'.toNat - 48 } "32".data) ∧
    (IconDescriptor.applyRest
        { IconDescriptor.default with scale := '2'.toNat - 48 } "32".data).scale =
      '2'.toNat - 48 :=
  C6_apply_scale_suffix IconDescriptor.default "32".data '2' (by decide) (by decide)

/-- The send loop of `tick` forwards, newest first, as many requests as the
channel has room for (the 32-budget never binds while `free < remaining`). -/
theorem tickSendAux_spec (rev : List LoadIconTaskRequest) :
    ∀ free remaining, free < remaining →
      IconLoader.tickSendAux rev free remaining = (rev.drop free, rev.take free) := by
  induction rev with
  | nil =>
    intro free remaining _
    simp [IconLoader.tickSendAux]
  | cons v rest ih =>
    intro free remaining h
    match free with
    | 0 => simp [IconLoader.tickSendAux]
    | free + 1 =>
      unfold IconLoader.tickSendAux
      rw [if_neg (by omega), if_neg (by omega)]
      simp only [Nat.add_sub_cancel]
      rw [ih free (remaining - 1) (by omega)]
      simp

/-- C7, counterexample.  The claim says `tick` forwards queued requests to
the worker in FIFO order; but the queue is drained with `Vec::pop`, so after
enqueueing A then B, `tick` sends B first. -/
theorem C7_counterexample :
    (IconLoader.tick
        { queue := [sampleRequestA, sampleRequestB], chan := [], responses := [] }).2.1 =
      [sampleRequestB, sampleRequestA] ∧
    [sampleRequestB, sampleRequestA] ≠ [sampleRequestA, sampleRequestB] := by
  decide

/-- C7, amended.  `tick` forwards queued requests in LIFO order: it pops the
most recently enqueued request first, so with an empty channel the forwarded
batch is the reverse of the enqueue order (truncated to the channel capacity
of 16), that batch enters the worker channel in that reversed order, and the
unforwarded oldest requests remain queued. -/
theorem C7_tick_lifo (q : List LoadIconTaskRequest) (rs : List LoadIconTaskResponse) :
    (IconLoader.tick { queue := q, chan := [], responses := rs }).2.1 =
      q.reverse.take 16 ∧
    (IconLoader.tick { queue := q, chan := [], responses := rs }).1.chan =
      q.reverse.take 16 ∧
    (IconLoader.tick { queue := q, chan := [], responses := rs }).1.queue =
      (q.reverse.drop 16).reverse := by
  have h := tickSendAux_spec q.reverse 16 32 (by omega)
  simp [IconLoader.tick, h]

/-- C8, counterexample.  The claim says `AppIconManager::tick` returns `true`
iff some work was processed; but once a loader exists `tick` returns `true`
unconditionally — here it returns `true` although zero requests were
forwarded and zero responses were applied. -/
theorem C8_counterexample :
    AppIconManager.tick
        { model := ⟨[]⟩, seen_icons := [], loader := some IconLoader.new,
          to_load := 0, to_load_finished := 0 } =
      some ({ model := ⟨[]⟩, seen_icons := [], loader := some IconLoader.new,
              to_load := 0, to_load_finished := 0 }, true) ∧
    (IconLoader.tick IconLoader.new).2.1 = [] ∧
    (IconLoader.tick IconLoader.new).2.2 = [] := by
  decide

/-- C8, amended.  `AppIconManager::tick` returns `true` iff the loader exists
(some request has been enqueued since startup), independently of whether any
request was forwarded or any response applied this call; with no loader it
returns `false` and changes nothing. -/
theorem C8_tick_amended (s : AppIconManager) :
    (s.loader = none → s.tick = some (s, false)) ∧
    (∀ s' b, s.tick = some (s', b) → (b = true ↔ s.loader.isSome = true)) := by
  constructor
  · intro h
    unfold AppIconManager.tick
    rw [h]
  · intro s' b h
    unfold AppIconManager.tick at h
    cases hl : s.loader with
    | none =>
      rw [hl] at h
      simp only [Option.some_inj, Prod.mk.injEq] at h
      obtain ⟨-, hb⟩ := h
      simp [hl, ← hb]
    | some l =>
      rw [hl] at h
      simp only [Option.map_eq_some'] at h
      obtain ⟨u, -, hu⟩ := h
      have hu' : (u, true) = (s', b) := hu
      simp only [Prod.mk.injEq] at hu'
      simp [hl, ← hu'.2]

/-- C8, witness for the amended theorem: a manager with no loader ticks to
`false`. -/
theorem C8_tick_amended_witness :
    AppIconManager.tick
        { model := ⟨[]⟩, seen_icons := [], loader := none,
          to_load := 0, to_load_finished := 0 } =
      some ({ model := ⟨[]⟩, seen_icons := [], loader := none,
              to_load := 0, to_load_finished := 0 }, false) :=
  (C8_tick_amended
    { model := ⟨[]⟩, seen_icons := [], loader := none,
      to_load := 0, to_load_finished := 0 }).1 rfl

/-! ### Association-list and seen-set helper lemmas -/

theorem lookupEntry_insertEntry_self (l : List (AppId × IconEntryModel)) (k : AppId)
    (v : IconEntryModel) : lookupEntry (insertEntry l k v) k = some v := by
  induction l with
  | nil => simp [insertEntry, lookupEntry]
  | cons kv rest ih =>
    obtain ⟨k', v'⟩ := kv
    by_cases hk : k' = k
    · subst hk; simp [insertEntry, lookupEntry]
    · simp [insertEntry, lookupEntry, hk, ih]

theorem lookupEntry_insertEntry_ne (l : List (AppId × IconEntryModel)) (k k' : AppId)
    (v : IconEntryModel) (h : k ≠ k') :
    lookupEntry (insertEntry l k v) k' = lookupEntry l k' := by
  induction l with
  | nil => simp [insertEntry, lookupEntry, h]
  | cons kv rest ih =>
    obtain ⟨k'', v''⟩ := kv
    by_cases hk : k'' = k
    · rw [insertEntry, if_pos hk, lookupEntry, if_neg h, lookupEntry,
        if_neg (show ¬k'' = k' from by rw [hk]; exact h)]
    · rw [insertEntry, if_neg hk]
      by_cases hk' : k'' = k'
      · rw [lookupEntry, if_pos hk', lookupEntry, if_pos hk']
      · rw [lookupEntry, if_neg hk', lookupEntry, if_neg hk']
        exact ih

theorem lookupEntry_eq_none_of_not_mem (l : List (AppId × IconEntryModel)) (k : AppId)
    (h : k ∉ l.map Prod.fst) : lookupEntry l k = none := by
  induction l with
  | nil => rfl
  | cons kv rest ih =>
    obtain ⟨k', v'⟩ := kv
    simp only [List.map_cons, List.mem_cons, not_or] at h
    rw [lookupEntry, if_neg (show ¬k' = k from fun hc => h.1 hc.symm)]
    exact ih h.2

theorem mem_keys_of_lookupEntry_some (l : List (AppId × IconEntryModel)) (k : AppId)
    (v : IconEntryModel) (h : lookupEntry l k = some v) : k ∈ l.map Prod.fst := by
  induction l with
  | nil => cases h
  | cons kv rest ih =>
    obtain ⟨k', v'⟩ := kv
    by_cases hk : k' = k
    · subst hk; simp
    · rw [lookupEntry, if_neg hk] at h
      simp [ih h]

theorem mem_keys_eraseEntry (l : List (AppId × IconEntryModel)) (k x : AppId)
    (h : x ∈ (eraseEntry l k).map Prod.fst) : x ∈ l.map Prod.fst := by
  induction l with
  | nil => simp [eraseEntry] at h
  | cons kv rest ih =>
    obtain ⟨k', v'⟩ := kv
    by_cases hk : k' = k
    · rw [eraseEntry, if_pos hk] at h
      simp [h]
    · rw [eraseEntry, if_neg hk] at h
      simp only [List.map_cons, List.mem_cons] at h ⊢
      rcases h with h | h
      · exact Or.inl h
      · exact Or.inr (ih h)

theorem eraseEntry_keys_nodup (l : List (AppId × IconEntryModel)) (k : AppId)
    (h : (l.map Prod.fst).Nodup) : ((eraseEntry l k).map Prod.fst).Nodup := by
  induction l with
  | nil => simp [eraseEntry]
  | cons kv rest ih =>
    obtain ⟨k', v'⟩ := kv
    simp only [List.map_cons, List.nodup_cons] at h
    by_cases hk : k' = k
    · rw [eraseEntry, if_pos hk]
      exact h.2
    · rw [eraseEntry, if_neg hk]
      simp only [List.map_cons, List.nodup_cons]
      exact ⟨fun hc => h.1 (mem_keys_eraseEntry rest k k' hc), ih h.2⟩

theorem lookupEntry_eraseEntry_self (l : List (AppId × IconEntryModel)) (k : AppId)
    (h : (l.map Prod.fst).Nodup) : lookupEntry (eraseEntry l k) k = none := by
  induction l with
  | nil => rfl
  | cons kv rest ih =>
    obtain ⟨k', v'⟩ := kv
    simp only [List.map_cons, List.nodup_cons] at h
    by_cases hk : k' = k
    · subst hk
      rw [eraseEntry, if_pos rfl]
      exact lookupEntry_eq_none_of_not_mem rest k' h.1
    · rw [eraseEntry, if_neg hk, lookupEntry, if_neg hk]
      exact ih h.2

theorem lookupEntry_eraseEntry_ne (l : List (AppId × IconEntryModel)) (k k' : AppId)
    (h : k ≠ k') : lookupEntry (eraseEntry l k) k' = lookupEntry l k' := by
  induction l with
  | nil => rfl
  | cons kv rest ih =>
    obtain ⟨k'', v''⟩ := kv
    by_cases hk : k'' = k
    · subst hk
      rw [eraseEntry, if_pos rfl, lookupEntry, if_neg h]
    · rw [eraseEntry, if_neg hk]
      by_cases hk' : k'' = k'
      · subst hk'; simp [lookupEntry]
      · rw [lookupEntry, if_neg hk', lookupEntry, if_neg hk']
        exact ih

theorem mem_insertSeen (l : List AppId) (a : AppId) : a ∈ insertSeen l a := by
  unfold insertSeen
  split
  · assumption
  · simp

theorem insertSeen_of_mem (l : List AppId) (a : AppId) (h : a ∈ l) :
    insertSeen l a = l := by
  unfold insertSeen
  rw [if_pos h]

/-! ### `prepare_icon` helper lemmas -/

/-- When the persisted entry already records the same source string,
`prepare_icon` only marks the application as seen. -/
theorem prepare_icon_skip (s : AppIconManager) (app : App) (source : String)
    (e : IconEntryModel) (h : app.icon = some source)
    (hl : lookupEntry s.model.values app.id = some e)
    (hsrc : e.source_location = source) :
    s.prepare_icon app = { s with seen_icons := insertSeen s.seen_icons app.id } := by
  unfold AppIconManager.prepare_icon
  rw [h]
  simp [hl, hsrc]

/-- After `prepare_icon` with a present source, the persisted entry for the
application records exactly that source string. -/
theorem prepare_icon_lookup (s : AppIconManager) (app : App) (source : String)
    (h : app.icon = some source) :
    ∃ e, lookupEntry (s.prepare_icon app).model.values app.id = some e ∧
      e.source_location = source := by
  unfold AppIconManager.prepare_icon
  rw [h]
  simp only
  cases hl : lookupEntry s.model.values app.id with
  | some e =>
    by_cases hsrc : e.source_location = source
    · exact ⟨e, by simp [hl, hsrc], hsrc⟩
    · refine ⟨{ source_location := source, export_id := some (s.model.find_free_id) }, ?_, rfl⟩
      simp [hl, hsrc, AppIconManager.new_location, lookupEntry_insertEntry_self]
  | none =>
    refine ⟨{ source_location := source, export_id := some (s.model.find_free_id) }, ?_, rfl⟩
    simp [hl, AppIconManager.new_location, lookupEntry_insertEntry_self]

/-- `prepare_icon` with a present source marks the application as seen, and
touches the seen set in no other way. -/
theorem prepare_icon_seen (s : AppIconManager) (app : App) (source : String)
    (h : app.icon = some source) :
    (s.prepare_icon app).seen_icons = insertSeen s.seen_icons app.id := by
  unfold AppIconManager.prepare_icon
  rw [h]
  simp only
  cases hl : lookupEntry s.model.values app.id with
  | some e =>
    by_cases hsrc : e.source_location = source
    · simp [hl, hsrc]
    · simp [hl, hsrc, AppIconManager.new_location]
  | none => simp [hl, AppIconManager.new_location]

/-- C4.  Calling `prepare_icon` a second time with the same source string for
the same application identity is a no-op: the whole manager state — queue,
mapping, export ids, counters and seen set included — is unchanged. -/
theorem C4_prepare_icon_idempotent (s : AppIconManager) (app : App) (source : String)
    (h : app.icon = some source) :
    (s.prepare_icon app).prepare_icon app = s.prepare_icon app := by
  obtain ⟨e, hl, hsrc⟩ := prepare_icon_lookup s app source h
  have hseen : app.id ∈ (s.prepare_icon app).seen_icons := by
    rw [prepare_icon_seen s app source h]
    exact mem_insertSeen _ _
  rw [prepare_icon_skip _ app source e h hl hsrc, insertSeen_of_mem _ _ hseen]

/-- C4, witness: a fresh manager and an application with icon source
`icon-a`. -/
theorem C4_prepare_icon_idempotent_witness :
    (AppIconManager.prepare_icon
        (AppIconManager.prepare_icon
          { model := ⟨[]⟩, seen_icons := [], loader := none,
            to_load := 0, to_load_finished := 0 }
          { id := "a", name := "AppA", icon := some "icon-a" })
        { id := "a", name := "AppA", icon := some "icon-a" }) =
      AppIconManager.prepare_icon
        { model := ⟨[]⟩, seen_icons := [], loader := none,
          to_load := 0, to_load_finished := 0 }
        { id := "a", name := "AppA", icon := some "icon-a" } :=
  C4_prepare_icon_idempotent
    { model := ⟨[]⟩, seen_icons := [], loader := none,
      to_load := 0, to_load_finished := 0 }
    { id := "a", name := "AppA", icon := some "icon-a" } "icon-a" rfl

/-! ### `free_location`, `remove_icon` and purge helper lemmas -/

/-- `free_location` on a failure clears only the export id of the entry. -/
theorem free_location_fail (s : AppIconManager) (loc : SlotLocation) (e : IconEntryModel)
    (hl : lookupEntry s.model.values loc.app_id = some e) :
    s.free_location false loc =
      some { s with model :=
        ⟨insertEntry s.model.values loc.app_id { e with export_id := none }⟩ } := by
  unfold AppIconManager.free_location
  rw [hl]
  rfl

/-- Applying a single failure response increments the finished counter and
clears the entry's export id. -/
theorem handle_responses_fail_one (s : AppIconManager) (msg : String) (loc : SlotLocation)
    (e : IconEntryModel) (hl : lookupEntry s.model.values loc.app_id = some e) :
    s.handle_responses [LoadIconTaskResponse.fail msg loc] =
      some { s with
        to_load_finished := s.to_load_finished + 1,
        model := ⟨insertEntry s.model.values loc.app_id { e with export_id := none }⟩ } := by
  unfold AppIconManager.handle_responses
  simp only [free_location_fail { s with to_load_finished := s.to_load_finished + 1 } loc e hl,
    Option.bind_eq_bind, Option.some_bind]
  rfl

theorem remove_icon_seen (s : AppIconManager) (k : AppId) :
    (s.remove_icon k).seen_icons = s.seen_icons := by
  unfold AppIconManager.remove_icon
  split <;> rfl

theorem remove_icon_lookup_none (s : AppIconManager) (k id : AppId)
    (h : lookupEntry s.model.values id = none) :
    lookupEntry (s.remove_icon k).model.values id = none := by
  unfold AppIconManager.remove_icon
  split
  · exact h
  · rename_i entry heq
    by_cases hk : k = id
    · subst hk; rw [heq] at h; cases h
    · rw [lookupEntry_eraseEntry_ne _ _ _ hk]; exact h

theorem remove_icon_lookup_ne (s : AppIconManager) (k id : AppId) (h : k ≠ id) :
    lookupEntry (s.remove_icon k).model.values id = lookupEntry s.model.values id := by
  unfold AppIconManager.remove_icon
  split
  · rfl
  · exact lookupEntry_eraseEntry_ne _ _ _ h

theorem remove_icon_lookup_self (s : AppIconManager) (k : AppId)
    (hnd : (s.model.values.map Prod.fst).Nodup) :
    lookupEntry (s.remove_icon k).model.values k = none := by
  unfold AppIconManager.remove_icon
  cases hl : lookupEntry s.model.values k with
  | none => exact hl
  | some v => exact lookupEntry_eraseEntry_self _ _ hnd

theorem remove_icon_keys_nodup (s : AppIconManager) (k : AppId)
    (hnd : (s.model.values.map Prod.fst).Nodup) :
    ((s.remove_icon k).model.values.map Prod.fst).Nodup := by
  unfold AppIconManager.remove_icon
  split
  · exact hnd
  · exact eraseEntry_keys_nodup _ _ hnd

/-- A key already absent stays absent through any removal sequence. -/
theorem foldl_remove_lookup_none (ids : List AppId) :
    ∀ s : AppIconManager, ∀ id, lookupEntry s.model.values id = none →
      lookupEntry ((ids.foldl AppIconManager.remove_icon s)).model.values id = none := by
  induction ids with
  | nil => intro s id h; exact h
  | cons k rest ih =>
    intro s id h
    exact ih (s.remove_icon k) id (remove_icon_lookup_none s k id h)

/-- A key in the removal list is absent after the removal sequence. -/
theorem foldl_remove_lookup_mem (ids : List AppId) :
    ∀ s : AppIconManager, ∀ id, id ∈ ids → (s.model.values.map Prod.fst).Nodup →
      lookupEntry ((ids.foldl AppIconManager.remove_icon s)).model.values id = none := by
  induction ids with
  | nil => intro s id h _; cases h
  | cons k rest ih =>
    intro s id h hnd
    by_cases hk : k = id
    · subst hk
      exact foldl_remove_lookup_none rest (s.remove_icon k) k
        (remove_icon_lookup_self s k hnd)
    · rcases List.mem_cons.mp h with h | h
      · exact absurd h.symm hk
      · exact ih (s.remove_icon k) id h (remove_icon_keys_nodup s k hnd)

/-- Removals of keys other than `id` never change `id`'s entry. -/
theorem foldl_remove_lookup_ne (ids : List AppId) :
    ∀ s : AppIconManager, ∀ id, (∀ k ∈ ids, k ≠ id) →
      lookupEntry ((ids.foldl AppIconManager.remove_icon s)).model.values id =
        lookupEntry s.model.values id := by
  induction ids with
  | nil => intro s id _; rfl
  | cons k rest ih =>
    intro s id h
    rw [List.foldl_cons, ih (s.remove_icon k) id (fun k' hk' => h k' (List.mem_cons_of_mem _ hk')),
      remove_icon_lookup_ne s k id (h k (List.mem_cons_self _ _))]

/-- `purge_unseen_icons` drops the entry of every unseen application. -/
theorem purge_lookup_of_unseen (s : AppIconManager) (id : AppId)
    (hseen : id ∉ s.seen_icons) (hnd : (s.model.values.map Prod.fst).Nodup) :
    lookupEntry (s.purge_unseen_icons).model.values id = none := by
  unfold AppIconManager.purge_unseen_icons
  cases hl : lookupEntry s.model.values id with
  | none => exact foldl_remove_lookup_none _ s id hl
  | some v =>
    refine foldl_remove_lookup_mem _ s id ?_ hnd
    simp only [List.mem_filter, decide_eq_true_eq]
    exact ⟨mem_keys_of_lookupEntry_some _ _ _ hl, hseen⟩

/-- `purge_unseen_icons` keeps the entry of every seen application. -/
theorem purge_lookup_of_seen (s : AppIconManager) (id : AppId)
    (hseen : id ∈ s.seen_icons) :
    lookupEntry (s.purge_unseen_icons).model.values id =
      lookupEntry s.model.values id := by
  unfold AppIconManager.purge_unseen_icons
  refine foldl_remove_lookup_ne _ s id ?_
  intro k hk
  simp only [List.mem_filter, decide_eq_true_eq] at hk
  exact fun hc => hk.2 (hc ▸ hseen)

/-- C9.  After a render-failure response is applied for an application, the
mapping entry keeps its source string and only loses its export id; a later
`prepare_icon` with the same source string then changes neither the model nor
the loader queue nor the pending counter — the failed icon is not retried. -/
theorem C9_failed_icon_not_retried (s : AppIconManager) (app : App) (source msg : String)
    (loc : SlotLocation) (e : IconEntryModel)
    (happ : app.icon = some source)
    (hloc : loc.app_id = app.id)
    (hl : lookupEntry s.model.values app.id = some e)
    (hsrc : e.source_location = source) :
    ∃ s', s.handle_responses [LoadIconTaskResponse.fail msg loc] = some s' ∧
      lookupEntry s'.model.values app.id = some { e with export_id := none } ∧
      (s'.prepare_icon app).model = s'.model ∧
      (s'.prepare_icon app).loader = s'.loader ∧
      (s'.prepare_icon app).to_load = s'.to_load := by
  have hl' : lookupEntry s.model.values loc.app_id = some e := by
    rw [hloc]; exact hl
  have hlook : lookupEntry
      (insertEntry s.model.values loc.app_id { e with export_id := none }) app.id =
      some { e with export_id := none } := by
    rw [hloc]; exact lookupEntry_insertEntry_self _ _ _
  refine ⟨_, handle_responses_fail_one s msg loc e hl', hlook, ?_, ?_, ?_⟩ <;>
    rw [prepare_icon_skip _ app source { e with export_id := none } happ hlook hsrc]

/-- C9, witness: one persisted entry, a failure response for it, then a
retry attempt with the unchanged source string. -/
theorem C9_failed_icon_not_retried_witness :
    ∃ s', AppIconManager.handle_responses
        { model := ⟨[("a", { source_location := "icon-a", export_id := some 0 })]⟩,
          seen_icons := ["a"], loader := none, to_load := 1, to_load_finished := 0 }
        [LoadIconTaskResponse.fail "boom"
          { app_id := "a", export_id := 0, freed := false, path := "0.png" }] = some s' ∧
      lookupEntry s'.model.values "a" =
        some { source_location := "icon-a", export_id := none } ∧
      (s'.prepare_icon { id := "a", name := "AppA", icon := some "icon-a" }).model = s'.model ∧
      (s'.prepare_icon { id := "a", name := "AppA", icon := some "icon-a" }).loader = s'.loader ∧
      (s'.prepare_icon { id := "a", name := "AppA", icon := some "icon-a" }).to_load = s'.to_load :=
  C9_failed_icon_not_retried
    { model := ⟨[("a", { source_location := "icon-a", export_id := some 0 })]⟩,
      seen_icons := ["a"], loader := none, to_load := 1, to_load_finished := 0 }
    { id := "a", name := "AppA", icon := some "icon-a" } "icon-a" "boom"
    { app_id := "a", export_id := 0, freed := false, path := "0.png" }
    { source_location := "icon-a", export_id := some 0 }
    rfl rfl rfl rfl

/-- C10.  `prepare_icon` for an application without an icon source leaves the
manager state entirely unchanged (seen set, model, loader, counters); hence a
previously persisted entry for an application never marked seen is gone after
the save/garbage-collection step that `finish` performs. -/
theorem C10_prepare_icon_none_frame (s : AppIconManager) (app : App)
    (h : app.icon = none) :
    s.prepare_icon app = s ∧
    (s.loader = none → s.finish [] = some s.save) ∧
    (app.id ∉ s.seen_icons → (s.model.values.map Prod.fst).Nodup →
      lookupEntry (s.save).model.values app.id = none) := by
  refine ⟨?_, ?_, ?_⟩
  · unfold AppIconManager.prepare_icon
    rw [h]
  · intro hloader
    unfold AppIconManager.finish
    rw [hloader]
    rfl
  · intro hseen hnd
    unfold AppIconManager.save
    exact purge_lookup_of_unseen s app.id hseen hnd

/-- C10, witness: a persisted entry for an unseen application and an
application record with no icon source. -/
theorem C10_prepare_icon_none_frame_witness :
    AppIconManager.prepare_icon
        { model := ⟨[("a", { source_location := "icon-a", export_id := some 0 })]⟩,
          seen_icons := [], loader := none, to_load := 0, to_load_finished := 0 }
        { id := "a", name := "AppA", icon := none } =
      { model := ⟨[("a", { source_location := "icon-a", export_id := some 0 })]⟩,
        seen_icons := [], loader := none, to_load := 0, to_load_finished := 0 } ∧
    lookupEntry
        (AppIconManager.save
          { model := ⟨[("a", { source_location := "icon-a", export_id := some 0 })]⟩,
            seen_icons := [], loader := none, to_load := 0, to_load_finished := 0 }).model.values
        "a" = none := by
  have h := C10_prepare_icon_none_frame
    { model := ⟨[("a", { source_location := "icon-a", export_id := some 0 })]⟩,
      seen_icons := [], loader := none, to_load := 0, to_load_finished := 0 }
    { id := "a", name := "AppA", icon := none } rfl
  exact ⟨h.1, h.2.2 (by decide) (by decide)⟩

theorem remove_icon_to_load_finished (s : AppIconManager) (k : AppId) :
    (s.remove_icon k).to_load_finished = s.to_load_finished := by
  unfold AppIconManager.remove_icon
  split <;> rfl

theorem foldl_remove_to_load_finished (ids : List AppId) :
    ∀ s : AppIconManager,
      ((ids.foldl AppIconManager.remove_icon s).to_load_finished = s.to_load_finished) := by
  induction ids with
  | nil => intro s; rfl
  | cons k rest ih =>
    intro s
    rw [List.foldl_cons, ih (s.remove_icon k), remove_icon_to_load_finished]

theorem purge_to_load_finished (s : AppIconManager) :
    (s.purge_unseen_icons).to_load_finished = s.to_load_finished :=
  foldl_remove_to_load_finished _ s

/-- Applying a list of failure responses succeeds whenever every named
application has a persisted entry; it counts every response exactly once,
touches neither seen set nor loader nor pending counter, preserves every
entry's presence and source string, and clears the export id of every named
entry. -/
theorem handle_fail_list (locs : List SlotLocation) (msg : String) :
    ∀ s : AppIconManager,
      (∀ loc ∈ locs, ∃ e, lookupEntry s.model.values loc.app_id = some e) →
      ∃ s', s.handle_responses (locs.map (LoadIconTaskResponse.fail msg)) = some s' ∧
        s'.to_load_finished = s.to_load_finished + locs.length ∧
        s'.seen_icons = s.seen_icons ∧
        s'.loader = s.loader ∧
        s'.to_load = s.to_load ∧
        (∀ id e, lookupEntry s.model.values id = some e →
          ∃ e', lookupEntry s'.model.values id = some e' ∧
            e'.source_location = e.source_location ∧
            (e.export_id = none → e'.export_id = none)) ∧
        (∀ loc ∈ locs, ∃ e', lookupEntry s'.model.values loc.app_id = some e' ∧
          e'.export_id = none) := by
  induction locs with
  | nil =>
    intro s _
    exact ⟨s, rfl, by simp, rfl, rfl, rfl,
      fun id e h => ⟨e, h, rfl, fun h' => h'⟩, by simp⟩
  | cons loc rest ih =>
    intro s hq
    obtain ⟨e, hl⟩ := hq loc (List.mem_cons_self _ _)
    have hstep : s.handle_responses ((loc :: rest).map (LoadIconTaskResponse.fail msg)) =
        AppIconManager.handle_responses
          { s with
            to_load_finished := s.to_load_finished + 1,
            model := ⟨insertEntry s.model.values loc.app_id { e with export_id := none }⟩ }
          (rest.map (LoadIconTaskResponse.fail msg)) := by
      rw [List.map_cons]
      show (AppIconManager.free_location
          { s with to_load_finished := s.to_load_finished + 1 } false loc).bind
          (fun s => s.handle_responses (rest.map (LoadIconTaskResponse.fail msg))) = _
      rw [free_location_fail { s with to_load_finished := s.to_load_finished + 1 } loc e hl]
      rfl
    have hq₂ : ∀ loc' ∈ rest, ∃ e',
        lookupEntry (insertEntry s.model.values loc.app_id { e with export_id := none })
          loc'.app_id = some e' := by
      intro loc' hmem
      obtain ⟨e', hl'⟩ := hq loc' (List.mem_cons_of_mem _ hmem)
      by_cases hid : loc.app_id = loc'.app_id
      · exact ⟨{ e with export_id := none }, by
          rw [← hid]; exact lookupEntry_insertEntry_self _ _ _⟩
      · exact ⟨e', by rw [lookupEntry_insertEntry_ne _ _ _ _ hid]; exact hl'⟩
    obtain ⟨s', hrun, htlf, hseen, hload, htl, hpres, hclear⟩ :=
      ih { s with
            to_load_finished := s.to_load_finished + 1,
            model := ⟨insertEntry s.model.values loc.app_id { e with export_id := none }⟩ }
        hq₂
    refine ⟨s', by rw [hstep]; exact hrun, ?_, hseen, hload, htl, ?_, ?_⟩
    · rw [htlf]
      simp only [List.length_cons]
      omega
    · intro id e₀ h₀
      by_cases hid : loc.app_id = id
      · have h₂ : lookupEntry
            (insertEntry s.model.values loc.app_id { e with export_id := none }) id =
            some { e with export_id := none } := by
          rw [← hid]; exact lookupEntry_insertEntry_self _ _ _
        obtain ⟨e', he', hsrc', hexp'⟩ := hpres id { e with export_id := none } h₂
        have he₀ : e₀ = e := by
          rw [← hid] at h₀
          rw [h₀] at hl
          exact Option.some_inj.mp hl
        subst he₀
        exact ⟨e', he', hsrc', fun _ => hexp' rfl⟩
      · have h₂ : lookupEntry
            (insertEntry s.model.values loc.app_id { e with export_id := none }) id =
            some e₀ := by
          rw [lookupEntry_insertEntry_ne _ _ _ _ hid]; exact h₀
        exact hpres id e₀ h₂
    · intro loc' hmem
      rcases List.mem_cons.mp hmem with heq | hmem'
      · subst heq
        obtain ⟨e', he', _, hexp'⟩ := hpres loc'.app_id { e with export_id := none }
          (lookupEntry_insertEntry_self _ _ _)
        exact ⟨e', he', hexp' rfl⟩
      · exact hclear loc' hmem'

/-- C5.  If requests sit in the local queue, nothing was ever forwarded to
the worker, and `finish` is then called, then the loader synthesizes exactly
one cancelled failure response per queued request (in queue order, none
lost), and the manager applies every one of them: the finished counter grows
by exactly the queue length and every queued request's entry survives with
its export id cleared. -/
theorem C5_finish_cancels_all (s : AppIconManager) (l : IconLoader)
    (hl : s.loader = some l) (hchan : l.chan = []) (hresp : l.responses = [])
    (hq : ∀ r ∈ l.queue,
      (∃ e, lookupEntry s.model.values r.location.app_id = some e) ∧
      r.location.app_id ∈ s.seen_icons) :
    IconLoader.finish l [] =
      l.queue.map (fun r => LoadIconTaskResponse.fail "Cancelled" r.location) ∧
    (IconLoader.finish l []).length = l.queue.length ∧
    ∃ s', s.finish [] = some s' ∧
      s'.to_load_finished = s.to_load_finished + l.queue.length ∧
      ∀ r ∈ l.queue, ∃ e, lookupEntry s'.model.values r.location.app_id = some e ∧
        e.export_id = none := by
  have hfin : IconLoader.finish l [] =
      l.queue.map (fun r => LoadIconTaskResponse.fail "Cancelled" r.location) := by
    unfold IconLoader.finish
    rw [hresp]
    simp
  refine ⟨hfin, by rw [hfin]; exact List.length_map _ _, ?_⟩
  have hfin' : IconLoader.finish l [] =
      (l.queue.map (fun r => r.location)).map (LoadIconTaskResponse.fail "Cancelled") := by
    rw [hfin, List.map_map]
    rfl
  have hq' : ∀ loc ∈ l.queue.map (fun r => r.location), ∃ e,
      lookupEntry ({ s with loader := (none : Option IconLoader) }).model.values loc.app_id =
        some e := by
    intro loc hmem
    obtain ⟨r, hr, hrloc⟩ := List.mem_map.mp hmem
    obtain ⟨⟨e, he⟩, -⟩ := hq r hr
    exact ⟨e, by rw [hrloc] at he; exact he⟩
  obtain ⟨s'', hrun, htlf, hseen, hload, htl, hpres, hclear⟩ :=
    handle_fail_list (l.queue.map (fun r => r.location)) "Cancelled"
      { s with loader := none } hq'
  refine ⟨s''.save, ?_, ?_, ?_⟩
  · unfold AppIconManager.finish
    rw [hl]
    show (AppIconManager.handle_responses { s with loader := none }
        (IconLoader.finish l [])).map AppIconManager.save = _
    rw [hfin', hrun]
    rfl
  · show (s''.purge_unseen_icons).to_load_finished = _
    rw [purge_to_load_finished, htlf, List.length_map]
  · intro r hr
    obtain ⟨e', he', hexp'⟩ := hclear (r.location) (List.mem_map_of_mem _ hr)
    have hseen' : r.location.app_id ∈ s''.seen_icons := by
      rw [hseen]
      exact (hq r hr).2
    refine ⟨e', ?_, hexp'⟩
    show lookupEntry (s''.purge_unseen_icons).model.values r.location.app_id = some e'
    rw [purge_lookup_of_seen s'' _ hseen']
    exact he'

/-- C5, witness: three queued requests, never ticked, then `finish`. -/
theorem C5_finish_cancels_all_witness :
    ∃ s', AppIconManager.finish
        { model := ⟨[("a", { source_location := "ia", export_id := some 0 }),
                     ("b", { source_location := "ib", export_id := some 1 }),
                     ("c", { source_location := "ic", export_id := some 2 })]⟩,
          seen_icons := ["a", "b", "c"],
          loader := some
            { queue := [{ id := "a", app_name := "A", icon := "ia",
                          location := { app_id := "a", export_id := 0, freed := false,
                                        path := "0.png" } },
                        { id := "b", app_name := "B", icon := "ib",
                          location := { app_id := "b", export_id := 1, freed := false,
                                        path := "1.png" } },
                        { id := "c", app_name := "C", icon := "ic",
                          location := { app_id := "c", export_id := 2, freed := false,
                                        path := "2.png" } }],
              chan := [], responses := [] },
          to_load := 3, to_load_finished := 0 } [] = some s' ∧
      s'.to_load_finished = 3 ∧
      ∀ r ∈ [({ id := "a", app_name := "A", icon := "ia",
                location := { app_id := "a", export_id := 0, freed := false,
                              path := "0.png" } } : LoadIconTaskRequest),
             { id := "b", app_name := "B", icon := "ib",
               location := { app_id := "b", export_id := 1, freed := false,
                             path := "1.png" } },
             { id := "c", app_name := "C", icon := "ic",
               location := { app_id := "c", export_id := 2, freed := false,
                             path := "2.png" } }],
        ∃ e, lookupEntry s'.model.values r.location.app_id = some e ∧
          e.export_id = none :=
  (C5_finish_cancels_all
    { model := ⟨[("a", { source_location := "ia", export_id := some 0 }),
                 ("b", { source_location := "ib", export_id := some 1 }),
                 ("c", { source_location := "ic", export_id := some 2 })]⟩,
      seen_icons := ["a", "b", "c"],
      loader := some
        { queue := [{ id := "a", app_name := "A", icon := "ia",
                      location := { app_id := "a", export_id := 0, freed := false,
                                    path := "0.png" } },
                    { id := "b", app_name := "B", icon := "ib",
                      location := { app_id := "b", export_id := 1, freed := false,
                                    path := "1.png" } },
                    { id := "c", app_name := "C", icon := "ic",
                      location := { app_id := "c", export_id := 2, freed := false,
                                    path := "2.png" } }],
          chan := [], responses := [] },
      to_load := 3, to_load_finished := 0 }
    { queue := [{ id := "a", app_name := "A", icon := "ia",
                  location := { app_id := "a", export_id := 0, freed := false,
                                path := "0.png" } },
                { id := "b", app_name := "B", icon := "ib",
                  location := { app_id := "b", export_id := 1, freed := false,
                                path := "1.png" } },
                { id := "c", app_name := "C", icon := "ic",
                  location := { app_id := "c", export_id := 2, freed := false,
                                path := "2.png" } }],
      chan := [], responses := [] }
    rfl rfl rfl
    (by
      intro r hr
      fin_cases hr
      · exact ⟨⟨_, rfl⟩, by decide⟩
      · exact ⟨⟨_, rfl⟩, by decide⟩
      · exact ⟨⟨_, rfl⟩, by decide⟩)).2.2

/-- C2, counterexample.  The claim says the staged search stops at the first
stage that yields any matching candidate; but a root whose only candidate is
a substring (non-exact) match at the shallow stage 2 does not stop the loop:
all four stages run (and the deep stage 3 re-collects the same file). -/
theorem C2_counterexample :
    IconFinder.runStage [CachedDir.mk "icons" ["foobar.png"] []] "foo" 2 =
      some ([{ path := ["icons", "foobar.png"], file_name := "foobar",
               descriptor := { size := none, scale := 1, theme := some "icons" } }],
            false) ∧
    (IconFinder.findStages ⟨[CachedDir.mk "icons" ["foobar.png"] []]⟩ "foo").map
        (fun p => p.2) = some [0, 1, 2, 3] := by
  decide

/-- The stage loop runs an initial segment of its step list: either it
exhausts every step with no stage reporting an exact match, or it stops right
after the first step whose `runStage` reports one. -/
theorem stageLoop_spec (dirs : List CachedDir) (name : String) :
    ∀ (steps : List Nat) (out : List IconLocation) (stages : List Nat),
      IconFinder.stageLoop dirs name steps = some (out, stages) →
      (stages = steps ∧
        ∀ j ∈ steps, ∃ o, IconFinder.runStage dirs name j = some (o, false)) ∨
      (∃ n, n + 1 ≤ steps.length ∧ stages = steps.take (n + 1) ∧
        (∀ j ∈ steps.take n, ∃ o, IconFinder.runStage dirs name j = some (o, false)) ∧
        (∃ o, IconFinder.runStage dirs name (steps.getD n 0) = some (o, true))) := by
  intro steps
  induction steps with
  | nil =>
    intro out stages h
    left
    have h' : (([] : List IconLocation), ([] : List Nat)) = (out, stages) :=
      Option.some_inj.mp h
    exact ⟨(congrArg Prod.snd h').symm, by simp⟩
  | cons i rest ih =>
    intro out stages h
    simp only [IconFinder.stageLoop] at h
    cases h0 : IconFinder.runStage dirs name i with
    | none => rw [h0] at h; cases h
    | some p =>
      obtain ⟨o, b⟩ := p
      rw [h0] at h
      cases b with
      | true =>
        have h' : (o, [i]) = (out, stages) := Option.some_inj.mp h
        injection h' with h1 h2
        right
        refine ⟨0, by simp, ?_, by simp, ⟨o, ?_⟩⟩
        · rw [← h2]
          simp
        · simpa using h0
      | false =>
        cases hrec : IconFinder.stageLoop dirs name rest with
        | none => rw [hrec] at h; cases h
        | some q =>
          obtain ⟨o₂, st₂⟩ := q
          rw [hrec] at h
          have h' : (o ++ o₂, i :: st₂) = (out, stages) := Option.some_inj.mp h
          injection h' with h1 h2
          have hst : stages = i :: st₂ := h2.symm
          rcases ih o₂ st₂ hrec with ⟨hall, hfall⟩ | ⟨n, hn, hst₂, hpre, hfound⟩
          · left
            refine ⟨by rw [hst, hall], ?_⟩
            intro j hj
            rcases List.mem_cons.mp hj with hj | hj
            · subst hj; exact ⟨o, h0⟩
            · exact hfall j hj
          · right
            refine ⟨n + 1, by simpa using Nat.succ_le_succ hn, ?_, ?_, ?_⟩
            · rw [hst, List.take_succ_cons, hst₂]
            · intro j hj
              rw [List.take_succ_cons] at hj
              rcases List.mem_cons.mp hj with hj | hj
              · subst hj; exact ⟨o, h0⟩
              · exact hpre j hj
            · rw [List.getD_cons_succ]
              exact hfound

/-- C2, amended.  `IconFinder::find` runs the four stages (hicolor deep,
default deep, shallow, full deep) in order, but stops only at the first stage
whose search across all roots reports at least one *exact* match: a file
whose stem equals the icon name exactly (substring-only candidates are
collected yet do not stop the loop, and `runStage`'s boolean is exactly
"the stage's exact-match count is positive"). -/
theorem C2_staged_search_amended (f : IconFinder) (name : String)
    (out : List IconLocation) (stages : List Nat)
    (h : f.findStages name = some (out, stages)) :
    (stages = [0, 1, 2, 3] ∧
      ∀ j ∈ [0, 1, 2, 3], ∃ o, IconFinder.runStage f.dirs name j = some (o, false)) ∨
    (∃ n, n + 1 ≤ 4 ∧ stages = List.take (n + 1) [0, 1, 2, 3] ∧
      (∀ j ∈ List.take n [0, 1, 2, 3], ∃ o,
        IconFinder.runStage f.dirs name j = some (o, false)) ∧
      (∃ o, IconFinder.runStage f.dirs name ([0, 1, 2, 3].getD n 0) = some (o, true))) := by
  unfold IconFinder.findStages at h
  cases hloop : IconFinder.stageLoop f.dirs name [0, 1, 2, 3] with
  | none => rw [hloop] at h; cases h
  | some p =>
    obtain ⟨out₀, stages₀⟩ := p
    rw [hloop] at h
    have h' : (if out₀.any (fun v => v.file_name = name) then
        out₀.filter (fun v => v.file_name = name) else out₀, stages₀) = (out, stages) :=
      Option.some_inj.mp h
    have hst : stages₀ = stages := congrArg Prod.snd h'
    exact stageLoop_spec f.dirs name [0, 1, 2, 3] out₀ stages (hst ▸ hloop)

/-- C2, witness for the amended theorem: one root with files `foo.png` and
`foobar.png`, searched for `foo`; the shallow stage 2 finds the exact match
and stage 3 is never run. -/
theorem C2_staged_search_amended_witness :
    (([0, 1, 2] : List Nat) = [0, 1, 2, 3] ∧
      ∀ j ∈ [0, 1, 2, 3], ∃ o, IconFinder.runStage
        [CachedDir.mk "icons" ["foo.png", "foobar.png"] []] "foo" j = some (o, false)) ∨
    (∃ n, n + 1 ≤ 4 ∧ ([0, 1, 2] : List Nat) = List.take (n + 1) [0, 1, 2, 3] ∧
      (∀ j ∈ List.take n [0, 1, 2, 3], ∃ o, IconFinder.runStage
        [CachedDir.mk "icons" ["foo.png", "foobar.png"] []] "foo" j = some (o, false)) ∧
      (∃ o, IconFinder.runStage [CachedDir.mk "icons" ["foo.png", "foobar.png"] []] "foo"
        ([0, 1, 2, 3].getD n 0) = some (o, true))) :=
  C2_staged_search_amended ⟨[CachedDir.mk "icons" ["foo.png", "foobar.png"] []]⟩ "foo"
    [{ path := ["icons", "foo.png"], file_name := "foo",
       descriptor := { size := none, scale := 1, theme := some "icons" } }]
    [0, 1, 2] (by decide)

end Ignition
